import Mathlib

/-!
Verification of the composition resolver and deployment-plan compiler of the
`juju-stack` repository (`stack/component.py`, `stack/config.py`,
`stack/juju.py`, `stack/__init__.py`).

The Python code is shallowly embedded: dictionaries become association lists
(preserving insertion order, as Python dicts do), exceptions become
`Except`/`Option` results, the `subprocess` execution backend becomes an
explicit function from the command line to a success flag, and the unbounded
recursion of `Stack.__init__` becomes recursion on an explicit fuel
parameter (a run that exhausts every fuel bound corresponds to Python
recursing without ever reaching a result).
-/

/-- Decidable equality of `Except` results (used to state concrete
evaluations of the embedded functions). -/
instance {ε α : Type} [DecidableEq ε] [DecidableEq α] :
    DecidableEq (Except ε α) := fun
  | .ok a, .ok b => decidable_of_iff (a = b) (by simp)
  | .ok _, .error _ => isFalse (by simp)
  | .error _, .ok _ => isFalse (by simp)
  | .error a, .error b => decidable_of_iff (a = b) (by simp)

namespace JujuStack

/-! ### Constants from `stack/__init__.py` -/

/-- Constant `STACK_SEPARATOR = "-s-"`. -/
def STACK_SEPARATOR : String := "-s-"

/-- Constant `STACK_SEPARATOR_REPR = "."`. -/
def STACK_SEPARATOR_REPR : String := "."

/-- Constant `COMPONENT_TYPES = ("stack", "charm")`. -/
def COMPONENT_TYPES : List String := ["stack", "charm"]

/-! ### Python string primitives

`str.replace` and `str.join` are embedded on `List Char` and lifted to
`String`.  Python's `replace` scans left to right, replacing the leftmost
occurrence and resuming after the inserted replacement. -/

/-- Character-level embedding of Python `str.replace` (for a non-empty
pattern; an empty pattern, which Python treats specially, never occurs in
this code base and is left as the identity).  The recursion is driven by a
fuel counter so that the definition is structurally recursive; fuel equal
to the string length (as `pyReplace` supplies) always suffices, because
each step consumes at least one character. -/
def replCharsF (pat repl : List Char) : Nat → List Char → List Char
  | 0, xs => xs
  | _ + 1, [] => []
  | fuel + 1, c :: rest =>
    if pat.isPrefixOf (c :: rest) && !pat.isEmpty then
      repl ++ replCharsF pat repl fuel ((c :: rest).drop pat.length)
    else
      c :: replCharsF pat repl fuel rest

/-- Embedding of Python `s.replace(pat, repl)`. -/
def pyReplace (s pat repl : String) : String :=
  ⟨replCharsF pat.data repl.data s.data.length s.data⟩

/-- Character-level embedding of Python `sep.join(parts)`. -/
def joinChars (sep : List Char) : List (List Char) → List Char
  | [] => []
  | [n] => n
  | n :: rest => n ++ sep ++ joinChars sep rest

/-- Embedding of Python `sep.join(parts)`. -/
def pyJoin (sep : String) (parts : List String) : String :=
  ⟨joinChars sep.data (parts.map String.data)⟩

/-- Embedding of `STACK_SEPARATOR.join(parts)`, the join used by `Component.name`:
a node's hierarchical name is the `-s-`-join of the local names on the
path from the root to the node (the root itself contributes nothing, so
the root's name is `""`). -/
def sJoin (parts : List String) : String :=
  pyJoin STACK_SEPARATOR parts

/-- Embedding of the `"."`-join, the display form of a hierarchical name. -/
def displayJoin (parts : List String) : String :=
  pyJoin STACK_SEPARATOR_REPR parts

/-! ### `stack/config.py` -/

/-- Embedding of the `Config` object.  `componentModel n` is the value of
`config.get("components", {}).get(n, {}).get("model")` (the two nested
absences are collapsed into one `Option`); `defaultModel` is
`config.get("default-model")`; `currentModel` is `config.current_model`. -/
structure Config where
  componentModel : String → Option String
  defaultModel : Option String
  currentModel : String

/-- Python `a or b` on an optional string operand: `None` and `""` are
falsy. -/
def pyOr (a b : Option String) : Option String :=
  match a with
  | some s => if s = "" then b else some s
  | none => b

/-- Embedding of `Config.get_model`:
`self.get("components", {}).get(name.replace(STACK_SEPARATOR, STACK_SEPARATOR_REPR), {}).get("model") or self.get("default-model") or self.current_model`. -/
def Config.get_model (c : Config) (component_name : String) : String :=
  match pyOr (pyOr (c.componentModel
      (pyReplace component_name STACK_SEPARATOR STACK_SEPARATOR_REPR))
      c.defaultModel) (some c.currentModel) with
  | some s => s
  | none => c.currentModel

/-! ### `ResourceType` and `Resource` (`stack/component.py`) -/

/-- Enum `ResourceType`. -/
inductive ResourceType where
  | CHARM
  | SAAS
  | OFFER
  | RELATION
deriving DecidableEq, Repr

/-- Embedding of `ResourceType.value` (`.value` of the Python enum). -/
def ResourceType.value : ResourceType → String
  | .CHARM => "charms"
  | .SAAS => "saas"
  | .OFFER => "offers"
  | .RELATION => "relation"

/-- Embedding of a `Resource`: the immutable fields of `__init__` plus the
`_created` flag (class default `False`).  `name` is `Option String` because
`get_relation_resource` constructs `Resource(None, ...)`. -/
structure Resource where
  name : Option String
  model : String
  resource_type : ResourceType
  create_command : List String
  created : Bool := false
deriving DecidableEq, Repr

/-- Embedding of `Resource.create`.  The execution backend (`subprocess.run`
with `check=True`) is a function `run` from the command line to a success
flag.  The result is `none` when `subprocess.run` raises
`CalledProcessError`; on success it returns the updated resource together
with the number of times the create command was actually executed by this
call (0 or 1), so that side-effect counts can be stated. -/
def Resource.create (r : Resource) (run : List String → Bool) :
    Option (Resource × Nat) :=
  if r.created then some (r, 0)
  else if run r.create_command then some ({ r with created := true }, 1)
  else none

/-! ### `Plan` (`stack/component.py`) -/

/-- The per-model entry of `Plan._info`: initialized as
`{ "charms": [], "saas": [], "offers": [] }`; these are the only keys the
deploy loop ever creates or writes (the `RELATION` type is explicitly
guarded out before any append). -/
structure ModelInfo where
  charms : List (Option String)
  saas : List (Option String)
  offers : List (Option String)
deriving DecidableEq, Repr

/-- The empty per-model entry. -/
def ModelInfo.empty : ModelInfo := ⟨[], [], []⟩

/-- Embedding of `Plan._info`: an insertion-ordered mapping from model name to its
entry, as a Python dict is. -/
abbrev Info : Type := List (String × ModelInfo)

/-- Dict lookup in `Plan._info`. -/
def lookupInfo : Info → String → Option ModelInfo
  | [], _ => none
  | (m, mi) :: rest, k => if k = m then some mi else lookupInfo rest k

/-- Embedding of `self._info[model][resource.type.value].append(resource.name)` on one
entry.  The `RELATION` case is unreachable: the deploy loop only appends
for non-relation resources. -/
def ModelInfo.addEntry (mi : ModelInfo) (t : ResourceType)
    (n : Option String) : ModelInfo :=
  match t with
  | .CHARM => { mi with charms := mi.charms ++ [n] }
  | .SAAS => { mi with saas := mi.saas ++ [n] }
  | .OFFER => { mi with offers := mi.offers ++ [n] }
  | .RELATION => mi

/-- In-place update of the entry of `model` in `Plan._info`. -/
def addName : Info → String → ResourceType → Option String → Info
  | [], _, _, _ => []
  | (m, mi) :: rest, k, t, n =>
    if k = m then (m, mi.addEntry t n) :: rest
    else (m, mi) :: addName rest k t n

/-- One iteration of the `Plan.deploy` loop, after `resource.create()`
succeeded: insert the model key if missing, then record the name unless the
resource is a relation. -/
def deployRecord (info : Info) (r : Resource) : Info :=
  let info1 :=
    if (lookupInfo info r.model).isSome then info
    else info ++ [(r.model, ModelInfo.empty)]
  if r.resource_type = ResourceType.RELATION then info1
  else addName info1 r.model r.resource_type r.name

/-- The entry that one deploy-loop iteration leaves stored under
`r.model`: the previous entry (or a fresh empty one), extended with the
resource's name unless the resource is a relation. -/
def recordedEntry (info : Info) (r : Resource) : ModelInfo :=
  let base := (lookupInfo info r.model).getD ModelInfo.empty
  if r.resource_type = ResourceType.RELATION then base
  else base.addEntry r.resource_type r.name

/-- Embedding of `Plan.deploy`: create each resource in order, accumulating
`Plan._info`.  When a `create` raises, the exception propagates and
`Plan._info` keeps exactly the state accumulated for the resources created
before the failure — the `.error` payload is that partial inventory (what
`Plan.info()` returns afterwards). -/
def planDeploy (run : List String → Bool) : List Resource → Info → Except Info Info
  | [], info => .ok info
  | r :: rest, info =>
    match r.create run with
    | none => .error info
    | some _ => planDeploy run rest (deployRecord info r)

/-! ### The resolved component tree

A built `Stack`/`Charm` tree, as it stands after `Stack.__init__` ran
`_load_components`, `_load_endpoints` and `_load_relations`.  The tree is
immutable afterwards, so every quantity the plan compiler reads through
parent pointers is stored directly:

* `path` is the list of local names from the root to the node, so that
  `Component.name` (the walk over `parent.get_component_name`) is
  `sJoin path`;
* an `Endpoint` keeps only what `get_plan` reads from it:
  `endpoint.component.name` (the owning node's hierarchical name, fixed
  once the tree exists) and the `"local:ep"` string. -/

/-- The fields of a `Charm` component. -/
structure CharmData where
  uri : String
  config : List (String × String)
  units : Nat
  channel : Option String
  trust : Bool
deriving DecidableEq, Repr

/-- A resolved `ProviderEndpoint`/`RequirerEndpoint`:
`componentName` is `endpoint.component.name`, `endpoint` is the
`"localName:endpointName"` string. -/
structure BEndpoint where
  componentName : String
  endpoint : String
deriving DecidableEq, Repr

/-- A resolved `Relation`. -/
structure BRelation where
  provider : BEndpoint
  requirer : BEndpoint
deriving DecidableEq, Repr

mutual
/-- A built `Component`: a `Charm` leaf or a `Stack` node (with its local
name in the parent's `components` dict, its `stack_name`, its root path,
its built children in dict order, and its resolved endpoint maps and
relations). -/
inductive BComponent : Type where
  | charm (localName : String) (data : CharmData) : BComponent
  | stack (localName : String) (sname : String) (path : List String)
      (components : BComponentList) (provides : List (String × BEndpoint))
      ( requires : List (String × BEndpoint)) (relations : List BRelation) :
      BComponent

/-- The children of a stack, in dict insertion order. -/
inductive BComponentList : Type where
  | nil : BComponentList
  | cons (c : BComponent) (rest : BComponentList) : BComponentList
end

/-! ### Resource constructors (`Stack.get_*_resource`) -/

/-- Embedding of `Stack.get_charm_resource`. -/
def get_charm_resource (charm : CharmData) (name model : String) : Resource :=
  { name := some name, model := model, resource_type := .CHARM,
    create_command :=
      ["juju", "deploy", charm.uri, name, "-n", toString charm.units, "-m", model]
        ++ (match charm.channel with
            | some ch => ["--channel", ch]
            | none => [])
        ++ (if charm.trust then ["--trust"] else [])
        ++ charm.config.flatMap (fun p => ["--config", p.1 ++ "=" ++ p.2]) }

/-- Embedding of `Stack.get_relation_resource` (note `Resource(None, ...)`: relation
resources are nameless). -/
def get_relation_resource (provider_endpoint requirer_endpoint model : String) :
    Resource :=
  { name := none, model := model, resource_type := .RELATION,
    create_command :=
      ["juju", "relate", provider_endpoint, requirer_endpoint, "-m", model] }

/-- Embedding of `Stack.get_offer_resource`. -/
def get_offer_resource (endpoint offer_name model : String) : Resource :=
  { name := some (pyReplace endpoint ":" "-"), model := model,
    resource_type := .OFFER,
    create_command := ["juju", "offer", endpoint, offer_name] }

/-- Embedding of `Stack.get_saas_resource`. -/
def get_saas_resource (offer_uri saas_name model : String) : Resource :=
  { name := some saas_name, model := model, resource_type := .SAAS,
    create_command := ["juju", "consume", offer_uri, "-m", model] }

/-! ### `Stack.get_plan` -/

/-- The `provider_endpoint` local of the relation loop of `get_plan`
(before the cross-model branch possibly replaces it by the offer name):
the component name is skipped when falsy (empty). -/
def providerEndpointStr (inst : String) (r : BRelation) : String :=
  if r.provider.componentName ≠ "" then
    sJoin [inst, r.provider.componentName, r.provider.endpoint]
  else sJoin [inst, r.provider.endpoint]

/-- The `requirer_endpoint` local of the relation loop of `get_plan`. -/
def requirerEndpointStr (inst : String) (r : BRelation) : String :=
  if r.requirer.componentName ≠ "" then
    sJoin [inst, r.requirer.componentName, r.requirer.endpoint]
  else sJoin [inst, r.requirer.endpoint]

/-- The `offer_name` local of `get_plan`:
`"{}{}{}{}{}".format(instance_name, STACK_SEPARATOR, relation.provider.component.name, STACK_SEPARATOR, relation.provider.endpoint.replace(":", "-"))`. -/
def offerNameStr (inst : String) (r : BRelation) : String :=
  inst ++ STACK_SEPARATOR ++ r.provider.componentName ++ STACK_SEPARATOR
    ++ pyReplace r.provider.endpoint ":" "-"

/-- The `offer_endpoint` local of `get_plan`. -/
def offerEndpointStr (inst provider_model : String) (r : BRelation) : String :=
  provider_model ++ "." ++ inst ++ STACK_SEPARATOR ++ r.provider.componentName
    ++ STACK_SEPARATOR ++ r.provider.endpoint

/-- One iteration of the relation loop of `get_plan`: the resources
appended for one relation (offer + consume + relate across models, a
single relate otherwise). -/
def relationResources (inst : String) (config : Config) (r : BRelation) :
    List Resource :=
  let provider_model := config.get_model r.provider.componentName
  let requirer_model := config.get_model r.requirer.componentName
  if provider_model ≠ requirer_model then
    [get_offer_resource (offerEndpointStr inst provider_model r)
        (offerNameStr inst r) provider_model,
     get_saas_resource (provider_model ++ "." ++ offerNameStr inst r)
        (offerNameStr inst r) requirer_model,
     get_relation_resource (offerNameStr inst r) (requirerEndpointStr inst r)
        requirer_model]
  else
    [get_relation_resource (providerEndpointStr inst r)
        (requirerEndpointStr inst r) requirer_model]

mutual
/-- Embedding of `Stack.get_plan` as the plan's resource list: the
component loop (deploys for charm children, spliced recursive plans for
stack children), then this level's relation loop. -/
def get_plan : BComponent → String → Config → List Resource
  | .charm _ _, _, _ => []
  | .stack _ _ path comps _ _ rels, inst, config =>
    componentResources path inst config comps
      ++ rels.flatMap (relationResources inst config)

/-- The component loop of `get_plan`.  A charm child is deployed under
`STACK_SEPARATOR.join([instance_name, component.name])` into
`config.get_model(self.name)`; a stack child contributes its own plan. -/
def componentResources :
    List String → String → Config → BComponentList → List Resource
  | _, _, _, .nil => []
  | path, inst, config, .cons (.charm n cd) rest =>
    get_charm_resource cd (sJoin [inst, sJoin (path ++ [n])])
        (config.get_model (sJoin path))
      :: componentResources path inst config rest
  | path, inst, config, .cons (.stack n sn p cs pr rq rl) rest =>
    get_plan (.stack n sn p cs pr rq rl) inst config
      ++ componentResources path inst config rest
end

/-! ### Tree construction (`Stack.__init__` / `_load_components` /
`_load_endpoints` / `_load_relations`, with `CharmHub` as environment) -/

/-- The errors tree construction can raise.  `outOfFuel` is not a Python
exception: it marks that the fuel bound on the recursion of
`Stack.__init__` was exhausted (the source has no recursion guard at
all). -/
inductive BuildErr where
  | unresolvedComponentType
  | stackYamlNotFound
  | registryKeyError
  | componentKeyError
  | endpointKeyError
  | valueError
  | outOfFuel
deriving DecidableEq, Repr

/-- A component entry of a stack spec (the YAML dict): each field records
whether the corresponding key is present and its value. -/
structure ComponentData where
  charm : Option String
  stack : Option String
  channel : Option String
  config : Option (List (String × String))
  units : Option Nat
  trust : Option Bool
deriving DecidableEq, Repr

/-- A `StackData` spec (with `description`, `provides`, `requires`,
`relations` already defaulted the way the `StackData` properties do).
`provides`/`requires` map an exposed name to its `forward` string;
`relations` is the ordered list of `(provider, requirer)` strings. -/
structure StackSpecData where
  name : String
  description : String
  components : List (String × ComponentData)
  provides : List (String × String)
  requires : List (String × String)
  relations : List (String × String)
deriving DecidableEq, Repr

/-- The spec-loading collaborators: `localStack uri` is
`CharmHub._load_stack_yaml(uri)` guarded by `CharmHub._valid_path(uri)`
(`none` when no `stack.yaml` is at the path), and `registryStack name
channel` is `CharmHub.get_stack(name, channel)` (`none` when the registry
lookup raises `KeyError`). -/
structure Env where
  localStack : String → Option StackSpecData
  registryStack : String → String → Option StackSpecData

/-- Test of `t in component_data` for `t` in `COMPONENT_TYPES`. -/
def hasComponentType (d : ComponentData) (t : String) : Bool :=
  if t = "stack" then d.stack.isSome
  else if t = "charm" then d.charm.isSome
  else false

/-- Embedding of `matched_types = [t for t in COMPONENT_TYPES if t in component_data]`. -/
def matchedTypes (d : ComponentData) : List String :=
  COMPONENT_TYPES.filter (hasComponentType d)

/-- Embedding of `stack_uri.startswith(".") or "/" in stack_uri` (computed on the
character lists so that it evaluates inside the kernel). -/
def isLocalUri (uri : String) : Bool :=
  List.isPrefixOf ".".data uri.data || uri.data.contains '/'

/-- Character-level embedding of Python `s.split(sep)` for a one-character
separator (`"".split(":") == [""]`, like this function). -/
def splitCharAux (c : Char) : List Char → List Char → List (List Char)
  | [], acc => [acc.reverse]
  | d :: rest, acc =>
    if d = c then acc.reverse :: splitCharAux c rest []
    else splitCharAux c rest (d :: acc)

/-- Embedding of Python `s.split(sep)` for a one-character separator. -/
def pySplitChar (s : String) (c : Char) : List String :=
  (splitCharAux c s.data []).map fun l => ⟨l⟩

/-- Python `component_name, endpoint_name = s.split(":")`
(`ValueError` unless the split has exactly two parts). -/
def splitColon2 (s : String) : Except BuildErr (String × String) :=
  match pySplitChar s ':' with
  | [a, b] => .ok (a, b)
  | _ => .error .valueError

/-- Local name of a built component (its key in the parent's dict). -/
def BComponent.localName : BComponent → String
  | .charm n _ => n
  | .stack n _ _ _ _ _ _ => n

/-- Lookup of `self.components[component_name]` (`KeyError` modeled as `none`). -/
def findComponent : BComponentList → String → Option BComponent
  | .nil, _ => none
  | .cons c rest, n => if c.localName = n then some c else findComponent rest n

/-- Dict lookup in a resolved endpoint map. -/
def epLookup : List (String × BEndpoint) → String → Option BEndpoint
  | [], _ => none
  | (m, ep) :: rest, k => if k = m then some ep else epLookup rest k

/-- The shared body of the `_load_endpoints` / `_load_relations` branches:
split the reference, look the component up, and either own the endpoint at
this stack (charm component) or take the child stack's already-resolved
endpoint (`provides` for a provider-side reference, `requires` for a
requirer-side one). -/
def resolveForward (selfName : String) (comps : BComponentList)
    (useProvides : Bool) (forward : String) : Except BuildErr BEndpoint := do
  let (component_name, endpoint_name) ← splitColon2 forward
  match findComponent comps component_name with
  | none => .error .componentKeyError
  | some (.charm _ _) => .ok { componentName := selfName, endpoint := forward }
  | some (.stack _ _ _ _ pr rq _) =>
    match epLookup (if useProvides then pr else rq) endpoint_name with
    | none => .error .endpointKeyError
    | some ep => .ok ep

/-- The `_load_endpoints` loop over one of the two endpoint dicts. -/
def loadEndpointEntries (selfName : String) (comps : BComponentList)
    (useProvides : Bool) :
    List (String × String) → Except BuildErr (List (String × BEndpoint))
  | [] => .ok []
  | (n, fwd) :: rest => do
    let ep ← resolveForward selfName comps useProvides fwd
    let r ← loadEndpointEntries selfName comps useProvides rest
    .ok ((n, ep) :: r)

/-- The `_load_relations` loop. -/
def loadRelationEntries (selfName : String) (comps : BComponentList) :
    List (String × String) → Except BuildErr (List BRelation)
  | [] => .ok []
  | (p, q) :: rest => do
    let pe ← resolveForward selfName comps true p
    let qe ← resolveForward selfName comps false q
    let r ← loadRelationEntries selfName comps rest
    .ok ({ provider := pe, requirer := qe } :: r)

/-- The charm branch of the `_load_components` loop. -/
def buildCharmComponent (n : String) (d : ComponentData) :
    Except BuildErr BComponent :=
  match d.charm with
  | none => .error .componentKeyError -- unreachable: guarded by matchedTypes
  | some uri =>
    .ok (.charm n
      { uri := uri, config := d.config.getD [], units := d.units.getD 1,
        channel := d.channel, trust := d.trust.getD false })

/-- The stack branch of the `_load_components` loop.
`recur` is the recursive `Stack(data, self)` construction. -/
def buildStackComponent (env : Env)
    (recur : List String → StackSpecData → Except BuildErr BComponent)
    (path : List String) (n : String) (d : ComponentData) :
    Except BuildErr BComponent :=
  match d.stack with
  | none => .error .componentKeyError -- unreachable: guarded by matchedTypes
  | some uri =>
    if isLocalUri uri then
      match env.localStack uri with
      | none => .error .stackYamlNotFound
      | some data => recur (path ++ [n]) data
    else
      match env.registryStack uri (d.channel.getD "stable") with
      | none => .error .registryKeyError
      | some data => recur (path ++ [n]) data

/-- One iteration of the `_load_components` loop: the
`UnresolvedComponentType` guard, then the stack or charm branch. -/
def buildComponent (env : Env)
    (recur : List String → StackSpecData → Except BuildErr BComponent)
    (path : List String) (n : String) (d : ComponentData) :
    Except BuildErr BComponent :=
  if (matchedTypes d).length ≠ 1 then .error .unresolvedComponentType
  else if (matchedTypes d).head? = some "stack" then
    buildStackComponent env recur path n d
  else buildCharmComponent n d

/-- The `_load_components` loop. -/
def buildComponents (env : Env)
    (recur : List String → StackSpecData → Except BuildErr BComponent)
    (path : List String) :
    List (String × ComponentData) → Except BuildErr BComponentList
  | [] => .ok .nil
  | (n, d) :: rest => do
    let c ← buildComponent env recur path n d
    let cs ← buildComponents env recur path rest
    .ok (.cons c cs)

/-- Embedding of `Stack.__init__` (hence of the whole recursive tree
construction), with `path` the position of the node under construction and
`fuel` a bound on the recursion depth.  The source has no cycle guard: a
spec graph that includes itself makes `buildStack` exhaust any `fuel`. -/
def buildStack (env : Env) : Nat → List String → StackSpecData →
    Except BuildErr BComponent
  | 0, _, _ => .error .outOfFuel
  | fuel + 1, path, data => do
    let comps ← buildComponents env (buildStack env fuel) path data.components
    let selfName := sJoin path
    let pr ← loadEndpointEntries selfName comps true data.provides
    let rq ← loadEndpointEntries selfName comps false data.requires
    let rels ← loadRelationEntries selfName comps data.relations
    .ok (.stack (path.getLastD "") data.name path comps pr rq rels)

/-! ### `deploy_stack` (`stack/juju.py`) -/

/-- Accessor for `stack.stack_name` (only stacks are deployed). -/
def BComponent.stack_name : BComponent → String
  | .charm _ _ => ""
  | .stack _ sn _ _ _ _ _ => sn

/-- What the caller of `deploy_stack` observes: whether an exception
reached it, and the inventory passed to `register_instance`. -/
structure DeployOutcome where
  raised : Bool
  registered : Info
deriving DecidableEq, Repr

/-- Embedding of `deploy_stack`: compile the plan, `try: plan.deploy()`,
`except Exception as e: print(...)` (the exception is swallowed, never
re-raised), `finally: register_instance(..., plan.info(), ...)`.  The
function body has no `return`, so the caller always gets a normal return
(`raised := false`), whether or not `plan.deploy()` raised. -/
def deploy_stack (run : List String → Bool) (stack : BComponent)
    (config : Config) (instance_name : Option String) : DeployOutcome :=
  let inst :=
    match pyOr instance_name (some stack.stack_name) with
    | some s => s
    | none => stack.stack_name
  let plan := get_plan stack inst config
  match planDeploy run plan [] with
  | .ok info => { raised := false, registered := info }
  | .error info => { raised := false, registered := info }

/-! ### Observers and counters over trees and plans -/

/-- The children of a `BComponentList`, as a plain list. -/
def BComponentList.toList : BComponentList → List BComponent
  | .nil => []
  | .cons c rest => c :: toList rest

mutual
/-- Number of charm components in a built tree. -/
def nCharms : BComponent → Nat
  | .charm _ _ => 1
  | .stack _ _ _ comps _ _ _ => nCharmsList comps

/-- Number of charm components under a child list. -/
def nCharmsList : BComponentList → Nat
  | .nil => 0
  | .cons c rest => nCharms c + nCharmsList rest
end

mutual
/-- Number of declared relations in a built tree (each level only lists
its own). -/
def nRelations : BComponent → Nat
  | .charm _ _ => 0
  | .stack _ _ _ comps _ _ rels => nRelationsList comps + rels.length

/-- Number of declared relations under a child list. -/
def nRelationsList : BComponentList → Nat
  | .nil => 0
  | .cons c rest => nRelations c + nRelationsList rest
end

mutual
/-- All relations of a built tree, across all levels. -/
def allRelations : BComponent → List BRelation
  | .charm _ _ => []
  | .stack _ _ _ comps _ _ rels => allRelationsList comps ++ rels

/-- All relations under a child list. -/
def allRelationsList : BComponentList → List BRelation
  | .nil => []
  | .cons c rest => allRelations c ++ allRelationsList rest
end

mutual
/-- Holds `true` when no relation of the tree (at any level) resolves its two
sides to different models under `config`. -/
def noCross (config : Config) : BComponent → Bool
  | .charm _ _ => true
  | .stack _ _ _ comps _ _ rels =>
    rels.all (fun r => config.get_model r.provider.componentName
        == config.get_model r.requirer.componentName)
      && noCrossList config comps

/-- Extension of `noCross` over a child list. -/
def noCrossList (config : Config) : BComponentList → Bool
  | .nil => true
  | .cons c rest => noCross config c && noCrossList config rest
end

/-- Number of resources of a given type in a plan. -/
def countType (t : ResourceType) (rs : List Resource) : Nat :=
  (rs.filter (fun r => r.resource_type == t)).length

/-- The names of the resources of model `m` and type `t` in a resource
list, in order (what the deploy loop appends to the inventory for that
model and type). -/
def createdNames (rs : List Resource) (m : String) (t : ResourceType) :
    List (Option String) :=
  (rs.filter (fun r => r.model == m && r.resource_type == t)).map (·.name)

/-- The offer identifiers of a plan: for every `OFFER` resource, the
`offer_name` argument of its `juju offer <endpoint> <offer_name>` create
command. -/
def offerArgNames (rs : List Resource) : List String :=
  rs.filterMap fun r =>
    if r.resource_type == ResourceType.OFFER then r.create_command.get? 3
    else none

mutual
/-- Structural induction over built trees: to prove `motive` for every
component it suffices to prove it for charms and, assuming it for all
children, for stacks. -/
def BComponent.inductionOn {motive : BComponent → Prop} :
    ∀ s : BComponent,
      (∀ n d, motive (.charm n d)) →
      (∀ n sn path comps pr rq rels,
        (∀ c ∈ BComponentList.toList comps, motive c) →
        motive (.stack n sn path comps pr rq rels)) →
      motive s
  | .charm n d, hcharm, _ => hcharm n d
  | .stack n sn path comps pr rq rels, hcharm, hstack =>
    hstack n sn path comps pr rq rels
      (BComponentList.inductionAll comps hcharm hstack)

/-- Application of `BComponent.inductionOn` to every member of a child list. -/
def BComponentList.inductionAll {motive : BComponent → Prop} :
    ∀ l : BComponentList,
      (∀ n d, motive (.charm n d)) →
      (∀ n sn path comps pr rq rels,
        (∀ c ∈ BComponentList.toList comps, motive c) →
        motive (.stack n sn path comps pr rq rels)) →
      ∀ c ∈ l.toList, motive c
  | .nil, _, _ => by intro c hc; simp [BComponentList.toList] at hc
  | .cons c rest, hcharm, hstack => by
    intro d hd
    rw [BComponentList.toList] at hd
    rcases List.mem_cons.mp hd with h | h
    · exact h ▸ BComponent.inductionOn c hcharm hstack
    · exact BComponentList.inductionAll rest hcharm hstack d h
end

/-! ### Concrete instances used by the claims -/

/-- The `frontend` stack spec of the specification's worked example. -/
def frontendSpec : StackSpecData :=
  { name := "frontend", description := "",
    components := [("ui",
      { charm := some "nginx", stack := none, channel := none,
        config := none, units := none, trust := none })],
    provides := [],
    requires := [("backend", "ui:db")],
    relations := [] }

/-- The `shop` root stack spec of the specification's worked example. -/
def shopSpec : StackSpecData :=
  { name := "shop", description := "",
    components :=
      [("db",
        { charm := some "mysql", stack := none, channel := none,
          config := none, units := none, trust := none }),
       ("web",
        { charm := none, stack := some "./frontend", channel := none,
          config := none, units := none, trust := none })],
    provides := [], requires := [],
    relations := [("db:mysql", "web:backend")] }

/-- Spec-loading environment of the worked example: `./frontend` holds the
`frontend` stack. -/
def shopEnv : Env :=
  { localStack := fun u => if u = "./frontend" then some frontendSpec else none,
    registryStack := fun _ _ => none }

/-- A configuration assigning `web` (and its charms) to a different model
than the rest, making the example relation cross-model. -/
def shopCfg : Config :=
  { componentModel := fun n => if n = "web" then some "m2" else none,
    defaultModel := none, currentModel := "m1" }

/-- A stack that includes itself (`./a` resolves back to its own spec). -/
def cyclicSpec : StackSpecData :=
  { name := "a", description := "",
    components := [("x",
      { charm := none, stack := some "./a", channel := none,
        config := none, units := none, trust := none })],
    provides := [], requires := [], relations := [] }

/-- Environment in which `./a` is `cyclicSpec` itself. -/
def cyclicEnv : Env :=
  { localStack := fun u => if u = "./a" then some cyclicSpec else none,
    registryStack := fun _ _ => none }

/-- A two-charm stack, used to exercise a failing deploy. -/
def twoCharmTree : BComponent :=
  .stack "" "s" []
    (.cons (.charm "a" { uri := "ua", config := [], units := 1, channel := none, trust := false })
      (.cons (.charm "b" { uri := "ub", config := [], units := 1, channel := none, trust := false })
        .nil))
    [] [] []

/-- A configuration with no overrides (everything goes to `m1`). -/
def plainCfg : Config := { componentModel := fun _ => none, defaultModel := none, currentModel := "m1" }

/-- An execution backend that fails exactly on the deploy command of
charm `b` (the second resource of `twoCharmTree`'s plan). -/
def failSecondRun : List String → Bool :=
  fun cmd => cmd.get? 3 != some "inst-s-b"

/-- A concrete fresh resource, used by witnesses. -/
def sampleResource : Resource :=
  { name := some "a", model := "m", resource_type := ResourceType.CHARM,
    create_command := ["juju"], created := false }

/-- A concrete relation resource targeting its own model, used by
witnesses (relation-only models must still appear in the inventory). -/
def relResource : Resource :=
  { name := none, model := "m2", resource_type := ResourceType.RELATION,
    create_command := ["juju", "relate"], created := false }

/-- The inventory after deploying `[sampleResource, relResource]`. -/
def witnessInfo : Info :=
  [("m", { charms := [some "a"], saas := [], offers := [] }),
   ("m2", ModelInfo.empty)]

/-- A configuration with a per-component override for `a.b` (the display
form of `a-s-b`), a default model and a current model, used by witnesses. -/
def overrideCfg : Config :=
  { componentModel := fun n => if n = "a.b" then some "mo" else none,
    defaultModel := some "md", currentModel := "mc" }

/-- A component entry carrying only the `charm` key, used by witnesses. -/
def charmOnlyEntry : ComponentData :=
  { charm := some "u", stack := none, channel := none, config := none,
    units := none, trust := none }

/-- Number of `CHARM` resources `get_plan` emits for a component: none for
a bare charm (charm deploys are emitted by the owning stack's loop), the
tree's charm count for a stack. -/
def planCharmCount : BComponent → Nat
  | .charm _ _ => 0
  | .stack _ _ _ comps _ _ _ => nCharmsList comps

/-- Number of `RELATION` resources `get_plan` emits for a component. -/
def planRelCount : BComponent → Nat
  | .charm _ _ => 0
  | .stack _ _ _ comps _ _ rels => nRelationsList comps + rels.length

/-- A two-level tree (charm `a` at the root, charm `b` under sub-stack
`sub`, one root relation), used by witnesses. -/
def nestedTree : BComponent :=
  .stack "" "root" []
    (.cons (.charm "a" { uri := "ua", config := [], units := 1, channel := none, trust := false })
      (.cons (.stack "sub" "subs" ["sub"]
          (.cons (.charm "b" { uri := "ub", config := [], units := 1, channel := none, trust := false })
            .nil)
          [] [] [])
        .nil))
    [] []
    [{ provider := { componentName := "", endpoint := "a:db" },
       requirer := { componentName := "sub", endpoint := "b:db" } }]

/-- A root stack with one resolved relation whose provider is owned at the
root (empty hierarchical name) and whose requirer lives under `web` — the
endpoints of the worked example — used by witnesses. -/
def crossRelTree : BComponent :=
  .stack "" "shop" [] .nil [] []
    [{ provider := { componentName := "", endpoint := "db:mysql" },
       requirer := { componentName := "web", endpoint := "ui:db" } }]

/-! ## Theorems -/

/-- C6: calling `Resource.create` twice in sequence performs the
underlying command execution exactly once: the first successful call runs
the command (count 1) and sets `created`, and the second call on the
resulting resource is a no-op (count 0, state unchanged). -/
theorem c6_create_idempotent (r : Resource) (run : List String → Bool)
    (h : r.created = false) (hrun : run r.create_command = true) :
    r.create run = some ({ r with created := true }, 1) ∧
    ({ r with created := true } : Resource).create run
      = some ({ r with created := true }, 0) := by
  constructor
  · simp [Resource.create, h, hrun]
  · simp [Resource.create]

/-- Witness for C6 at a concrete fresh resource and an always-succeeding
backend. -/
theorem c6_create_idempotent_witness :
    sampleResource.created = false ∧
    (fun (_ : List String) => true) sampleResource.create_command = true ∧
    sampleResource.create (fun _ => true)
      = some ({ sampleResource with created := true }, 1) := by
  refine ⟨rfl, rfl, ?_⟩
  exact (c6_create_idempotent sampleResource (fun _ => true) rfl rfl).1

/-- C2 (code bug): on a plan whose second resource fails to create,
`Plan.deploy` raises with the inventory holding exactly the first
resource's name — but `deploy_stack` catches the exception, registers the
partial inventory, and returns normally, so no error ever reaches its
caller. -/
theorem c2_deploy_error_swallowed :
    planDeploy failSecondRun (get_plan twoCharmTree "inst" plainCfg) []
      = .error [("m1", { charms := [some "inst-s-a"], saas := [], offers := [] })] ∧
    deploy_stack failSecondRun twoCharmTree plainCfg (some "inst")
      = { raised := false,
          registered :=
            [("m1", { charms := [some "inst-s-a"], saas := [], offers := [] })] } := by
  decide

/-- C4 (counterexample): building the worked example (`shop` with charm
`db` and sub-stack `web = ./frontend`) and compiling it with `db` and
`web` in different models produces the offer name `"shop-s--s-db-mysql"`
— the provider endpoint is owned by the root stack, whose hierarchical
name is empty, and the empty segment is joined in — not the claimed
`"shop-s-db-s-mysql"`. -/
theorem c4_offer_name_example_counterexample :
    (buildStack shopEnv 5 [] shopSpec).map
        (fun t => offerArgNames (get_plan t "shop" shopCfg))
      = .ok ["shop-s--s-db-mysql"] ∧
    "shop-s--s-db-mysql" ≠ "shop-s-db-s-mysql" := by decide

/-- C1 (code bug): constructing the tree of a self-including stack spec
exhausts every recursion bound — `Stack.__init__` has no cycle guard, so
no `CyclicComposition` (or any other) error is ever produced; the
construction just recurses until the interpreter kills it. -/
theorem c1_cyclic_inclusion_exhausts_any_fuel :
    ∀ (fuel : Nat) (path : List String),
      buildStack cyclicEnv fuel path cyclicSpec = .error .outOfFuel := by
  intro fuel
  induction fuel with
  | zero => intro _; rfl
  | succ f ih =>
    intro path
    have hc : buildComponent cyclicEnv (buildStack cyclicEnv f) path "x"
        { charm := none, stack := some "./a", channel := none,
          config := none, units := none, trust := none }
        = buildStack cyclicEnv f (path ++ ["x"]) cyclicSpec := rfl
    have h1 : buildStack cyclicEnv (f + 1) path cyclicSpec
        = (buildComponents cyclicEnv (buildStack cyclicEnv f) path
            cyclicSpec.components).bind
            (fun comps =>
              (loadEndpointEntries (sJoin path) comps true cyclicSpec.provides).bind
                (fun pr =>
                  (loadEndpointEntries (sJoin path) comps false
                      cyclicSpec.requires).bind
                    (fun rq =>
                      (loadRelationEntries (sJoin path) comps
                          cyclicSpec.relations).bind
                        (fun rels => Except.ok
                          (.stack (path.getLastD "") cyclicSpec.name path comps
                            pr rq rels))))) := rfl
    have h2 : buildComponents cyclicEnv (buildStack cyclicEnv f) path
        cyclicSpec.components = .error .outOfFuel := by
      have h3 : buildComponents cyclicEnv (buildStack cyclicEnv f) path
          cyclicSpec.components
          = (buildComponent cyclicEnv (buildStack cyclicEnv f) path "x"
              { charm := none, stack := some "./a", channel := none,
                config := none, units := none, trust := none }).bind
              (fun c =>
                (buildComponents cyclicEnv (buildStack cyclicEnv f) path []).bind
                  (fun cs => Except.ok (.cons c cs))) := rfl
      rw [h3, hc, ih]
      rfl
    rw [h1, h2]
    rfl

/-- C8: `Config.get_model` resolves a hierarchical component name with the
three-tier fallback: the per-component override (looked up under the
display form of the name) when one is set, else the configured default
model when set, else the current model — the current model is always
returned when both upper tiers are absent.  (Because Python's `or` treats
the empty string as falsy, a tier is "set" when present and non-empty.) -/
theorem c8_get_model_three_tier (c : Config) (name : String) :
    (∀ v, c.componentModel
        (pyReplace name STACK_SEPARATOR STACK_SEPARATOR_REPR) = some v →
      v ≠ "" → c.get_model name = v) ∧
    (c.componentModel (pyReplace name STACK_SEPARATOR STACK_SEPARATOR_REPR)
        = none →
      ∀ d, c.defaultModel = some d → d ≠ "" → c.get_model name = d) ∧
    (c.componentModel (pyReplace name STACK_SEPARATOR STACK_SEPARATOR_REPR)
        = none →
      c.defaultModel = none → c.get_model name = c.currentModel) := by
  refine ⟨?_, ?_, ?_⟩
  · intro v hv hne
    simp [Config.get_model, pyOr, hv, hne]
  · intro h0 d hd hne
    simp [Config.get_model, pyOr, h0, hd, hne]
  · intro h0 hd
    simp [Config.get_model, pyOr, h0, hd]

/-- Witness for C8: the override tier at a concrete configuration, looked
up under the display form `a.b` of the hierarchical name `a-s-b`. -/
theorem c8_get_model_three_tier_witness :
    overrideCfg.componentModel
        (pyReplace "a-s-b" STACK_SEPARATOR STACK_SEPARATOR_REPR) = some "mo" ∧
    "mo" ≠ "" ∧ overrideCfg.get_model "a-s-b" = "mo" := by
  refine ⟨by decide, by decide, ?_⟩
  exact (c8_get_model_three_tier overrideCfg "a-s-b").1 "mo" (by decide)
    (by decide)

/-- C7: in `_load_components`, the `UnresolvedComponentType` check fires
on an entry iff the entry has zero or both of the `charm`/`stack` keys;
an entry with exactly one key never triggers it — the guard passes to the
matching branch (and a charm-only entry even always constructs a charm
node; a stack-only entry proceeds to the stack branch, whose own result is
attributed to the nested spec's entries). -/
theorem c7_component_type_check (env : Env)
    (recur : List String → StackSpecData → Except BuildErr BComponent)
    (path : List String) (n : String) (d : ComponentData) :
    ((matchedTypes d).length ≠ 1 ↔ ¬(d.charm.isSome ≠ d.stack.isSome)) ∧
    ((matchedTypes d).length ≠ 1 →
      buildComponent env recur path n d = .error .unresolvedComponentType) ∧
    (d.charm.isSome = true → d.stack.isSome = false →
      buildComponent env recur path n d = buildCharmComponent n d ∧
      ∃ cd, buildCharmComponent n d = .ok (.charm n cd)) ∧
    (d.stack.isSome = true → d.charm.isSome = false →
      buildComponent env recur path n d = buildStackComponent env recur path n d) := by
  rcases hch : d.charm with _ | u <;> rcases hst : d.stack with _ | v <;>
    simp [matchedTypes, hasComponentType, COMPONENT_TYPES, buildComponent,
      buildCharmComponent, hch, hst]

/-- Witness for C7 at a concrete charm-only entry. -/
theorem c7_component_type_check_witness :
    charmOnlyEntry.charm.isSome = true ∧
    charmOnlyEntry.stack.isSome = false ∧
    (buildComponent shopEnv (fun _ _ => Except.error BuildErr.outOfFuel) [] "c"
        charmOnlyEntry
      = buildCharmComponent "c" charmOnlyEntry ∧
      ∃ cd, buildCharmComponent "c" charmOnlyEntry = .ok (.charm "c" cd)) := by
  refine ⟨rfl, rfl, ?_⟩
  exact (c7_component_type_check shopEnv (fun _ _ => Except.error BuildErr.outOfFuel)
    [] "c" charmOnlyEntry).2.2.1 rfl rfl

/-! ### Plan-structure lemmas shared by the relation claims -/

/-- Evaluating `relationResources` on a cross-model relation gives exactly the
offer/consume/relate triple, in that order. -/
theorem relationResources_cross (inst : String) (config : Config)
    (r : BRelation)
    (h : config.get_model r.provider.componentName
      ≠ config.get_model r.requirer.componentName) :
    relationResources inst config r
      = [get_offer_resource
          (offerEndpointStr inst (config.get_model r.provider.componentName) r)
          (offerNameStr inst r) (config.get_model r.provider.componentName),
         get_saas_resource
          (config.get_model r.provider.componentName ++ "."
            ++ offerNameStr inst r)
          (offerNameStr inst r) (config.get_model r.requirer.componentName),
         get_relation_resource (offerNameStr inst r)
          (requirerEndpointStr inst r)
          (config.get_model r.requirer.componentName)] := by
  simp [relationResources, h]

/-- Evaluating `relationResources` on a same-model relation gives a single relate. -/
theorem relationResources_same (inst : String) (config : Config)
    (r : BRelation)
    (h : config.get_model r.provider.componentName
      = config.get_model r.requirer.componentName) :
    relationResources inst config r
      = [get_relation_resource (providerEndpointStr inst r)
          (requirerEndpointStr inst r)
          (config.get_model r.requirer.componentName)] := by
  simp [relationResources, h]

/-- Extend an infix on the right of a prepended list. -/
theorem infixExtendLeft {α : Type _} (a : List α) {l b : List α}
    (h : l <:+: b) : l <:+: a ++ b := by
  obtain ⟨s, t, hst⟩ := h
  exact ⟨a ++ s, t, by rw [← hst]; simp⟩

/-- Extend an infix on the left of an appended list. -/
theorem infixExtendRight {α : Type _} (b : List α) {l a : List α}
    (h : l <:+: a) : l <:+: a ++ b := by
  obtain ⟨s, t, hst⟩ := h
  exact ⟨s, t ++ b, by rw [← hst]; simp⟩

/-- Extend an infix past a front element. -/
theorem infixExtendCons {α : Type _} (x : α) {l m : List α}
    (h : l <:+: m) : l <:+: x :: m := by
  obtain ⟨s, t, hst⟩ := h
  exact ⟨x :: s, t, by rw [← hst]; simp⟩

/-- The block a member contributes to a `flatMap` is an infix of it. -/
theorem flatMapInfixOfMem {α β : Type _} (f : α → List β) {x : α} :
    ∀ {l : List α}, x ∈ l → f x <:+: l.flatMap f := by
  intro l
  induction l with
  | nil => intro h; cases h
  | cons y ys ih =>
    intro h
    rw [List.flatMap_cons]
    rcases List.mem_cons.mp h with rfl | hmem
    · exact infixExtendRight _ (List.infix_refl _)
    · exact infixExtendLeft _ (ih hmem)

/-- A child's spliced plan is an infix of the component loop's output. -/
def childPlanSpliced (inst : String) (config : Config) (path : List String) :
    ∀ l : BComponentList, ∀ c ∈ l.toList,
      get_plan c inst config <:+: componentResources path inst config l
  | .nil => by intro c hc; simp [BComponentList.toList] at hc
  | .cons c rest => by
    intro d hd
    rw [BComponentList.toList] at hd
    rcases List.mem_cons.mp hd with rfl | hmem
    · cases d with
      | charm n cd =>
        rw [get_plan]
        exact List.nil_infix
      | stack n sn p cs pr rq rl =>
        rw [componentResources]
        exact infixExtendRight _ (List.infix_refl _)
    · cases c with
      | charm n cd =>
        rw [componentResources]
        exact infixExtendCons _ (childPlanSpliced inst config path rest d hmem)
      | stack n sn p cs pr rq rl =>
        rw [componentResources]
        exact infixExtendLeft _ (childPlanSpliced inst config path rest d hmem)

/-- A relation found anywhere in the collected relations of a child list
comes from some child. -/
def memAllRelList (r : BRelation) :
    ∀ l : BComponentList, r ∈ allRelationsList l →
      ∃ c ∈ l.toList, r ∈ allRelations c
  | .nil => by intro h; simp [allRelationsList] at h
  | .cons c rest => by
    intro h
    rw [allRelationsList] at h
    rcases List.mem_append.mp h with h1 | h2
    · exact ⟨c, by rw [BComponentList.toList]; exact List.mem_cons_self c _, h1⟩
    · obtain ⟨d, hd, hr⟩ := memAllRelList r rest h2
      exact ⟨d, by rw [BComponentList.toList]; exact List.mem_cons_of_mem c hd, hr⟩

/-- The resources a relation contributes form an infix of the plan of any
tree containing that relation at any level. -/
theorem relResInPlan (inst : String) (config : Config) (r : BRelation)
    (s : BComponent) :
    r ∈ allRelations s →
      relationResources inst config r <:+: get_plan s inst config := by
  refine BComponent.inductionOn
    (motive := fun s => r ∈ allRelations s →
      relationResources inst config r <:+: get_plan s inst config) s ?_ ?_
  · intro n d h
    simp [allRelations] at h
  · intro n sn path comps pr rq rels ih h
    rw [allRelations] at h
    rw [get_plan]
    rcases List.mem_append.mp h with h1 | h2
    · obtain ⟨c, hc, hr⟩ := memAllRelList r comps h1
      exact infixExtendRight _
        ((ih c hc hr).trans (childPlanSpliced inst config path comps c hc))
    · exact infixExtendLeft _ (flatMapInfixOfMem _ h2)

/-- C3: for every relation (at any level of the tree) whose provider and
requirer resolve to different models, the compiled plan contains for that
relation exactly one offer, then one consume (saas) in the requirer's
model, then one relate in the requirer's model, contiguously in that
order, and the relate's provider reference (argument 2 of `juju relate`)
equals the consume's alias (its resource name). -/
theorem c3_cross_model_relation_triple (inst : String) (config : Config)
    (s : BComponent) (r : BRelation) (hr : r ∈ allRelations s)
    (hcross : config.get_model r.provider.componentName
      ≠ config.get_model r.requirer.componentName) :
    (∃ offerRes saasRes relRes : Resource,
      relationResources inst config r = [offerRes, saasRes, relRes] ∧
      offerRes.resource_type = ResourceType.OFFER ∧
      saasRes.resource_type = ResourceType.SAAS ∧
      saasRes.model = config.get_model r.requirer.componentName ∧
      relRes.resource_type = ResourceType.RELATION ∧
      relRes.model = config.get_model r.requirer.componentName ∧
      relRes.create_command.get? 2 = saasRes.name) ∧
    relationResources inst config r <:+: get_plan s inst config := by
  refine ⟨⟨_, _, _, relationResources_cross inst config r hcross,
    rfl, rfl, rfl, rfl, rfl, rfl⟩, relResInPlan inst config r s hr⟩

/-- Witness for C3 at the worked example's relation, in a concrete tree. -/
theorem c3_cross_model_relation_triple_witness :
    ({ provider := { componentName := "", endpoint := "db:mysql" },
       requirer := { componentName := "web", endpoint := "ui:db" } } : BRelation)
        ∈ allRelations crossRelTree ∧
    shopCfg.get_model "" ≠ shopCfg.get_model "web" ∧
    relationResources "shop" shopCfg
        { provider := { componentName := "", endpoint := "db:mysql" },
          requirer := { componentName := "web", endpoint := "ui:db" } }
      <:+: get_plan crossRelTree "shop" shopCfg := by
  refine ⟨by decide, by decide, ?_⟩
  exact (c3_cross_model_relation_triple "shop" shopCfg crossRelTree
    { provider := { componentName := "", endpoint := "db:mysql" },
      requirer := { componentName := "web", endpoint := "ui:db" } }
    (by decide) (by decide)).2

/-- C4 (amended): for every cross-model relation the synthesized offer
name (the `offer_name` argument of the offer command, also the consume's
alias) is the instance name, the provider's hierarchical component name,
and the provider's endpoint reference with `:` replaced by `-`, joined by
the internal separator — the separator is inserted around the component
name even when it is empty (provider endpoint owned at the root), so the
worked example yields `"shop-s--s-db-mysql"`. -/
theorem c4_offer_name_formula (inst : String) (config : Config)
    (r : BRelation)
    (h : config.get_model r.provider.componentName
      ≠ config.get_model r.requirer.componentName) :
    ∃ offerRes saasRes relRes : Resource,
      relationResources inst config r = [offerRes, saasRes, relRes] ∧
      offerRes.resource_type = ResourceType.OFFER ∧
      offerRes.create_command.get? 3
        = some (inst ++ STACK_SEPARATOR ++ r.provider.componentName
            ++ STACK_SEPARATOR ++ pyReplace r.provider.endpoint ":" "-") ∧
      saasRes.name
        = some (inst ++ STACK_SEPARATOR ++ r.provider.componentName
            ++ STACK_SEPARATOR ++ pyReplace r.provider.endpoint ":" "-") := by
  exact ⟨_, _, _, relationResources_cross inst config r h, rfl, rfl, rfl⟩

/-- Witness for C4's amended formula at the worked example's relation:
the root-owned provider makes the name `"shop-s--s-db-mysql"`. -/
theorem c4_offer_name_formula_witness :
    shopCfg.get_model "" ≠ shopCfg.get_model "web" ∧
    ("shop" ++ STACK_SEPARATOR ++ "" ++ STACK_SEPARATOR
        ++ pyReplace "db:mysql" ":" "-") = "shop-s--s-db-mysql" ∧
    (∃ offerRes saasRes relRes : Resource,
      relationResources "shop" shopCfg
          { provider := { componentName := "", endpoint := "db:mysql" },
            requirer := { componentName := "web", endpoint := "ui:db" } }
        = [offerRes, saasRes, relRes] ∧
      offerRes.resource_type = ResourceType.OFFER ∧
      offerRes.create_command.get? 3
        = some ("shop" ++ STACK_SEPARATOR ++ "" ++ STACK_SEPARATOR
            ++ pyReplace "db:mysql" ":" "-") ∧
      saasRes.name
        = some ("shop" ++ STACK_SEPARATOR ++ "" ++ STACK_SEPARATOR
            ++ pyReplace "db:mysql" ":" "-")) := by
  refine ⟨by decide, by decide, ?_⟩
  exact c4_offer_name_formula "shop" shopCfg
    { provider := { componentName := "", endpoint := "db:mysql" },
      requirer := { componentName := "web", endpoint := "ui:db" } }
    (by decide)

/-! ### Counting lemmas for C5 -/

/-- Lemma: `countType` distributes over append. -/
theorem countType_append (t : ResourceType) (a b : List Resource) :
    countType t (a ++ b) = countType t a + countType t b := by
  simp [countType, List.filter_append]

/-- Lemma: `countType` on a cons. -/
theorem countType_cons (t : ResourceType) (x : Resource) (xs : List Resource) :
    countType t (x :: xs)
      = (if x.resource_type == t then 1 else 0) + countType t xs := by
  rw [countType, List.filter_cons]
  by_cases h : (x.resource_type == t) = true
  · simp [h, countType]
    omega
  · simp [h, countType]

/-- A relation contributes no `CHARM` resource, cross-model or not. -/
theorem relationResources_charm_count (inst : String) (config : Config)
    (r : BRelation) :
    countType ResourceType.CHARM (relationResources inst config r) = 0 := by
  by_cases h : config.get_model r.provider.componentName
      = config.get_model r.requirer.componentName
  · rw [relationResources_same inst config r h]; rfl
  · rw [relationResources_cross inst config r h]; rfl

/-- A relation contributes exactly one `RELATION` resource, cross-model or
not. -/
theorem relationResources_rel_count (inst : String) (config : Config)
    (r : BRelation) :
    countType ResourceType.RELATION (relationResources inst config r) = 1 := by
  by_cases h : config.get_model r.provider.componentName
      = config.get_model r.requirer.componentName
  · rw [relationResources_same inst config r h]; rfl
  · rw [relationResources_cross inst config r h]; rfl

/-- The relation loop contributes no `CHARM` resource. -/
theorem relationLoop_charm_count (inst : String) (config : Config) :
    ∀ rels : List BRelation,
      countType ResourceType.CHARM
        (rels.flatMap (relationResources inst config)) = 0 := by
  intro rels
  induction rels with
  | nil => rfl
  | cons r rest ih =>
    rw [List.flatMap_cons, countType_append, ih,
      relationResources_charm_count inst config r]

/-- The relation loop contributes exactly one `RELATION` resource per
relation. -/
theorem relationLoop_rel_count (inst : String) (config : Config) :
    ∀ rels : List BRelation,
      countType ResourceType.RELATION
        (rels.flatMap (relationResources inst config)) = rels.length := by
  intro rels
  induction rels with
  | nil => rfl
  | cons r rest ih =>
    rw [List.flatMap_cons, countType_append, ih,
      relationResources_rel_count inst config r, List.length_cons]
    omega

/-- With no cross-model relation at this level, the relation loop is one
relate per relation, in declaration order. -/
theorem relationLoop_same (inst : String) (config : Config) :
    ∀ rels : List BRelation,
      rels.all (fun r => config.get_model r.provider.componentName
        == config.get_model r.requirer.componentName) = true →
      rels.flatMap (relationResources inst config)
        = rels.map (fun r => get_relation_resource (providerEndpointStr inst r)
            (requirerEndpointStr inst r)
            (config.get_model r.requirer.componentName)) := by
  intro rels
  induction rels with
  | nil => intro _; rfl
  | cons r rest ih =>
    intro h
    rw [List.all_cons, Bool.and_eq_true] at h
    rw [List.flatMap_cons, ih h.2, List.map_cons,
      relationResources_same inst config r (by exact beq_iff_eq.mp h.1)]
    rfl

/-- The component loop emits exactly the tree's charm count as `CHARM`
resources and the subtrees' relation count as `RELATION` resources,
provided each child stack's plan does (the hypothesis is discharged by
`planCounts` below). -/
def componentCounts (inst : String) (config : Config) (path : List String) :
    ∀ l : BComponentList,
      (∀ c ∈ l.toList, ∀ (inst' : String) (config' : Config),
        countType ResourceType.CHARM (get_plan c inst' config')
            = planCharmCount c ∧
        countType ResourceType.RELATION (get_plan c inst' config')
            = planRelCount c) →
      countType ResourceType.CHARM (componentResources path inst config l)
          = nCharmsList l ∧
      countType ResourceType.RELATION (componentResources path inst config l)
          = nRelationsList l
  | .nil, _ => by
    constructor <;> rfl
  | .cons (.charm m cd) rest, h => by
    have ih := componentCounts inst config path rest
      (fun c hc => h c (by rw [BComponentList.toList]; exact List.mem_cons_of_mem _ hc))
    rw [componentResources]
    refine ⟨?_, ?_⟩
    · rw [countType_cons, ih.1]
      simp [get_charm_resource, nCharmsList, nCharms]
    · rw [countType_cons, ih.2]
      simp [get_charm_resource, nRelationsList, nRelations]
  | .cons (.stack m sn p cs pr rq rl) rest, h => by
    have ih := componentCounts inst config path rest
      (fun c hc => h c (by rw [BComponentList.toList]; exact List.mem_cons_of_mem _ hc))
    have ihs := h (.stack m sn p cs pr rq rl)
      (by rw [BComponentList.toList]; exact List.mem_cons_self _ _) inst config
    rw [componentResources]
    refine ⟨?_, ?_⟩
    · rw [countType_append, ih.1, ihs.1]
      simp [planCharmCount, nCharmsList, nCharms]
    · rw [countType_append, ih.2, ihs.2]
      simp [planRelCount, nRelationsList, nRelations]

/-- Function `get_plan` emits `planCharmCount` / `planRelCount` resources of types
`CHARM` / `RELATION` for every component. -/
theorem planCounts (s : BComponent) :
    ∀ (inst : String) (config : Config),
      countType ResourceType.CHARM (get_plan s inst config) = planCharmCount s ∧
      countType ResourceType.RELATION (get_plan s inst config) = planRelCount s := by
  refine BComponent.inductionOn
    (motive := fun s => ∀ (inst : String) (config : Config),
      countType ResourceType.CHARM (get_plan s inst config) = planCharmCount s ∧
      countType ResourceType.RELATION (get_plan s inst config) = planRelCount s)
    s ?_ ?_
  · intro n d inst config
    constructor <;> rfl
  · intro n sn path comps pr rq rels ih inst config
    have hl := componentCounts inst config path comps ih
    rw [get_plan]
    refine ⟨?_, ?_⟩
    · rw [countType_append, hl.1, relationLoop_charm_count inst config rels]
      simp [planCharmCount]
    · rw [countType_append, hl.2, relationLoop_rel_count inst config rels]
      simp [planRelCount]

/-- C5: for a tree with `n` charms and `m` relations in total, none of
which crosses models, the compiled plan holds exactly `n` `CHARM` and `m`
`RELATION` resources; each level's deploys and spliced child plans precede
that level's own relation resources, which are one relate per relation in
declaration order.  (The statement quantifies over every stack value, so
it applies at every level of a tree.) -/
theorem c5_plan_counts (inst : String) (config : Config) (n sn : String)
    (path : List String) (comps : BComponentList)
    (pr rq : List (String × BEndpoint)) (rels : List BRelation)
    (h : noCross config (.stack n sn path comps pr rq rels) = true) :
    countType ResourceType.CHARM
        (get_plan (.stack n sn path comps pr rq rels) inst config)
      = nCharms (.stack n sn path comps pr rq rels) ∧
    countType ResourceType.RELATION
        (get_plan (.stack n sn path comps pr rq rels) inst config)
      = nRelations (.stack n sn path comps pr rq rels) ∧
    get_plan (.stack n sn path comps pr rq rels) inst config
      = componentResources path inst config comps
        ++ rels.map (fun r => get_relation_resource (providerEndpointStr inst r)
            (requirerEndpointStr inst r)
            (config.get_model r.requirer.componentName)) := by
  have hc := planCounts (.stack n sn path comps pr rq rels) inst config
  have hall : rels.all (fun r => config.get_model r.provider.componentName
      == config.get_model r.requirer.componentName) = true := by
    rw [noCross, Bool.and_eq_true] at h
    exact h.1
  refine ⟨?_, ?_, ?_⟩
  · rw [hc.1]; rfl
  · rw [hc.2]; rfl
  · rw [get_plan, relationLoop_same inst config rels hall]

/-- Witness for C5 at a concrete two-level tree with two charms and one
same-model relation. -/
theorem c5_plan_counts_witness :
    noCross plainCfg nestedTree = true ∧
    countType ResourceType.CHARM (get_plan nestedTree "i" plainCfg)
        = nCharms nestedTree ∧
    countType ResourceType.RELATION (get_plan nestedTree "i" plainCfg)
        = nRelations nestedTree := by
  have hnc : noCross plainCfg nestedTree = true := by decide
  have := c5_plan_counts "i" plainCfg "" "root" []
    (.cons (.charm "a" { uri := "ua", config := [], units := 1, channel := none, trust := false })
      (.cons (.stack "sub" "subs" ["sub"]
          (.cons (.charm "b" { uri := "ub", config := [], units := 1, channel := none, trust := false })
            .nil)
          [] [] [])
        .nil))
    [] []
    [{ provider := { componentName := "", endpoint := "a:db" },
       requirer := { componentName := "sub", endpoint := "b:db" } }] hnc
  exact ⟨hnc, this.1, this.2.1⟩

/-! ### Inventory lemmas for C10 -/

/-- Looking a key up after appending one entry at the end. -/
theorem lookupInfo_append_single (i : Info) (k : String) (v : ModelInfo) :
    ∀ m, lookupInfo (i ++ [(k, v)]) m
      = (lookupInfo i m).or (if m = k then some v else none) := by
  induction i with
  | nil => intro m; by_cases h : m = k <;> simp [lookupInfo, h, Option.or]
  | cons p rest ih =>
    obtain ⟨k', v'⟩ := p
    intro m
    by_cases h : m = k' <;> simp [lookupInfo, h, ih, Option.or]

/-- Looking a key up after an in-place `addName` update. -/
theorem lookupInfo_addName (i : Info) (k : String) (t : ResourceType)
    (nm : Option String) :
    ∀ m, lookupInfo (addName i k t nm) m
      = if m = k then (lookupInfo i m).map (fun mi => mi.addEntry t nm)
        else lookupInfo i m := by
  induction i with
  | nil => intro m; by_cases h : m = k <;> simp [addName, lookupInfo, h]
  | cons p rest ih =>
    obtain ⟨k', v'⟩ := p
    intro m
    by_cases hk : k = k'
    · subst hk
      by_cases hm : m = k <;> simp [addName, lookupInfo, hm, ih]
    · by_cases hm : m = k'
      · subst hm
        have : ¬ m = k := fun hmk => hk hmk.symm
        simp [addName, lookupInfo, hk, this]
      · simp [addName, lookupInfo, hk, hm, ih]

/-- After one deploy-loop iteration the entry of the resource's model is
`recordedEntry`. -/
theorem deployRecord_self (info : Info) (r : Resource) :
    lookupInfo (deployRecord info r) r.model = some (recordedEntry info r) := by
  rcases hl : lookupInfo info r.model with _ | mi <;>
    by_cases ht : r.resource_type = ResourceType.RELATION <;>
      simp [deployRecord, recordedEntry, hl, ht, lookupInfo_append_single,
        lookupInfo_addName, Option.or]

/-- One deploy-loop iteration leaves every other model's entry alone. -/
theorem deployRecord_other (info : Info) (r : Resource) (m : String)
    (h : m ≠ r.model) :
    lookupInfo (deployRecord info r) m = lookupInfo info m := by
  have hor : ∀ o : Option ModelInfo, o.or none = o := by
    intro o; cases o <;> rfl
  rcases hl : lookupInfo info r.model with _ | mi <;>
    by_cases ht : r.resource_type = ResourceType.RELATION <;>
      simp [deployRecord, hl, ht, lookupInfo_append_single,
        lookupInfo_addName, h, hor]

/-- Lemma: `createdNames` on a cons. -/
theorem createdNames_cons (r : Resource) (rest : List Resource) (m : String)
    (t : ResourceType) :
    createdNames (r :: rest) m t
      = (if r.model == m && r.resource_type == t then [r.name] else [])
        ++ createdNames rest m t := by
  rw [createdNames, List.filter_cons]
  by_cases h : (r.model == m && r.resource_type == t) = true <;>
    simp [h, createdNames]

/-- The fields `recordedEntry` accumulates are exactly the per-type name
lists of the processed resources. -/
theorem recordedEntry_fields (info0 : Info) (r : Resource)
    (rest : List Resource) :
    (recordedEntry info0 r).charms
        ++ createdNames rest r.model ResourceType.CHARM
      = ((lookupInfo info0 r.model).getD ModelInfo.empty).charms
        ++ createdNames (r :: rest) r.model ResourceType.CHARM ∧
    (recordedEntry info0 r).saas
        ++ createdNames rest r.model ResourceType.SAAS
      = ((lookupInfo info0 r.model).getD ModelInfo.empty).saas
        ++ createdNames (r :: rest) r.model ResourceType.SAAS ∧
    (recordedEntry info0 r).offers
        ++ createdNames rest r.model ResourceType.OFFER
      = ((lookupInfo info0 r.model).getD ModelInfo.empty).offers
        ++ createdNames (r :: rest) r.model ResourceType.OFFER := by
  rcases ht : r.resource_type <;>
    simp [recordedEntry, ModelInfo.addEntry, ht, createdNames_cons]

/-- Full characterization of a successful `Plan.deploy` run starting from
an arbitrary inventory: present keys are preserved, every executed
resource's model gains a key, and each entry extends its starting value by
exactly the names of the executed resources of that model and type. -/
theorem planDeploy_ok_characterization (run : List String → Bool) :
    ∀ (rs : List Resource) (info0 info : Info),
      planDeploy run rs info0 = .ok info →
      ((∀ m, (lookupInfo info0 m).isSome = true →
          (lookupInfo info m).isSome = true) ∧
       (∀ r ∈ rs, (lookupInfo info r.model).isSome = true) ∧
       (∀ m mi, lookupInfo info m = some mi →
         ∃ mi0 : ModelInfo,
           (lookupInfo info0 m = some mi0 ∨
             (lookupInfo info0 m = none ∧ mi0 = ModelInfo.empty)) ∧
           mi.charms = mi0.charms ++ createdNames rs m ResourceType.CHARM ∧
           mi.saas = mi0.saas ++ createdNames rs m ResourceType.SAAS ∧
           mi.offers = mi0.offers ++ createdNames rs m ResourceType.OFFER)) := by
  intro rs
  induction rs with
  | nil =>
    intro info0 info h
    rw [planDeploy] at h
    injection h with h
    subst h
    refine ⟨fun m hm => hm, by simp, ?_⟩
    intro m mi hmi
    exact ⟨mi, Or.inl hmi, by simp [createdNames], by simp [createdNames],
      by simp [createdNames]⟩
  | cons r rest ih =>
    intro info0 info h
    rw [planDeploy] at h
    rcases hc : r.create run with _ | x
    · rw [hc] at h; cases h
    · rw [hc] at h
      obtain ⟨ih1, ih2, ih3⟩ := ih (deployRecord info0 r) info h
      have hpres : ∀ m, (lookupInfo info0 m).isSome = true →
          (lookupInfo (deployRecord info0 r) m).isSome = true := by
        intro m hm
        by_cases hmr : m = r.model
        · subst hmr; rw [deployRecord_self]; rfl
        · rw [deployRecord_other info0 r m hmr]; exact hm
      refine ⟨fun m hm => ih1 m (hpres m hm), ?_, ?_⟩
      · intro r' hr'
        rcases List.mem_cons.mp hr' with rfl | hmem
        · exact ih1 r'.model (by rw [deployRecord_self]; rfl)
        · exact ih2 r' hmem
      · intro m mi hmi
        obtain ⟨mi1, hcase1, g1, g2, g3⟩ := ih3 m mi hmi
        by_cases hmr : m = r.model
        · subst hmr
          have hself := deployRecord_self info0 r
          have hmi1 : mi1 = recordedEntry info0 r := by
            rcases hcase1 with h1 | ⟨h1, _⟩
            · rw [hself] at h1
              injection h1 with h1
              exact h1.symm
            · rw [hself] at h1; cases h1
          subst hmi1
          obtain ⟨f1, f2, f3⟩ := recordedEntry_fields info0 r rest
          rcases hbase : lookupInfo info0 r.model with _ | mi0
          · refine ⟨ModelInfo.empty, Or.inr ⟨rfl, rfl⟩, ?_, ?_, ?_⟩
            · rw [g1, f1, hbase]; rfl
            · rw [g2, f2, hbase]; rfl
            · rw [g3, f3, hbase]; rfl
          · refine ⟨mi0, Or.inl rfl, ?_, ?_, ?_⟩
            · rw [g1, f1, hbase]; rfl
            · rw [g2, f2, hbase]; rfl
            · rw [g3, f3, hbase]; rfl
        · have hother := deployRecord_other info0 r m hmr
          have hskip : ∀ t, t ≠ ResourceType.RELATION →
              createdNames (r :: rest) m t = createdNames rest m t := by
            intro t _
            rw [createdNames_cons]
            have : (r.model == m) = false := by
              simp [beq_iff_eq]
              exact fun hh => hmr hh.symm
            simp [this]
          rcases hcase1 with h1 | ⟨h1, h2⟩
          · refine ⟨mi1, Or.inl (hother ▸ h1), ?_, ?_, ?_⟩
            · rw [g1, hskip ResourceType.CHARM (by simp)]
            · rw [g2, hskip ResourceType.SAAS (by simp)]
            · rw [g3, hskip ResourceType.OFFER (by simp)]
          · refine ⟨mi1, Or.inr ⟨hother ▸ h1, h2⟩, ?_, ?_, ?_⟩
            · rw [g1, hskip ResourceType.CHARM (by simp)]
            · rw [g2, hskip ResourceType.SAAS (by simp)]
            · rw [g3, hskip ResourceType.OFFER (by simp)]

/-- C10: after any (successful) prefix of `Plan.deploy`'s execution —
every such prefix is itself a `planDeploy` run on the prefix list — every
model targeted by an executed resource appears as a key in the inventory,
including models targeted only by `RELATION` resources; each entry is a
`ModelInfo`, i.e. carries exactly the keys `charms`/`saas`/`offers`, and
each list holds exactly the names of the created resources of that model
and type — `RELATION` resources contribute to none of the three lists. -/
theorem c10_inventory_structure (run : List String → Bool)
    (rs : List Resource) (info : Info)
    (h : planDeploy run rs [] = .ok info) :
    (∀ r ∈ rs, (lookupInfo info r.model).isSome = true) ∧
    (∀ m mi, lookupInfo info m = some mi →
      mi.charms = createdNames rs m ResourceType.CHARM ∧
      mi.saas = createdNames rs m ResourceType.SAAS ∧
      mi.offers = createdNames rs m ResourceType.OFFER) := by
  obtain ⟨_, h2, h3⟩ := planDeploy_ok_characterization run rs [] info h
  refine ⟨h2, ?_⟩
  intro m mi hmi
  obtain ⟨mi0, hcase, g1, g2, g3⟩ := h3 m mi hmi
  rcases hcase with hsome | ⟨_, rfl⟩
  · simp [lookupInfo] at hsome
  · simp [ModelInfo.empty] at g1 g2 g3
    exact ⟨g1, g2, g3⟩

/-- Witness for C10: a charm in model `m` followed by a relation targeting
model `m2`; the inventory keys both models, the relation contributing no
name. -/
theorem c10_inventory_structure_witness :
    planDeploy (fun _ => true) [sampleResource, relResource] []
        = .ok witnessInfo ∧
    ((∀ r ∈ [sampleResource, relResource],
        (lookupInfo witnessInfo r.model).isSome = true) ∧
     (∀ m mi, lookupInfo witnessInfo m = some mi →
        mi.charms = createdNames [sampleResource, relResource] m
            ResourceType.CHARM ∧
        mi.saas = createdNames [sampleResource, relResource] m
            ResourceType.SAAS ∧
        mi.offers = createdNames [sampleResource, relResource] m
            ResourceType.OFFER)) :=
  ⟨by decide, c10_inventory_structure (fun _ => true)
    [sampleResource, relResource] witnessInfo (by decide)⟩

/-! ### String lemmas for C9 -/

/-- Fuel irrelevance: `replCharsF` does not depend on the fuel, as long as the fuel bounds
the input length. -/
theorem replCharsF_fuel (pat repl : List Char) :
    ∀ (f g : Nat) (xs : List Char), xs.length ≤ f → xs.length ≤ g →
      replCharsF pat repl f xs = replCharsF pat repl g xs := by
  intro f
  induction f with
  | zero =>
    intro g xs hf _
    have hx : xs = [] := List.length_eq_zero.mp (Nat.le_zero.mp hf)
    subst hx
    cases g <;> rfl
  | succ f ih =>
    intro g xs hf hg
    cases xs with
    | nil => cases g <;> rfl
    | cons c rest =>
      cases g with
      | zero => simp at hg
      | succ g' =>
        rw [replCharsF, replCharsF]
        by_cases hp : (pat.isPrefixOf (c :: rest) && !pat.isEmpty) = true
        · rw [if_pos hp, if_pos hp]
          congr 1
          have hplen : 1 ≤ pat.length := by
            rcases pat with _ | ⟨p, ps⟩
            · simp at hp
            · simp
          apply ih
          · simp only [List.length_drop, List.length_cons]
            simp only [List.length_cons] at hf
            omega
          · simp only [List.length_drop, List.length_cons]
            simp only [List.length_cons] at hg
            omega
        · rw [if_neg hp, if_neg hp]
          congr 1
          apply ih
          · simp only [List.length_cons] at hf; omega
          · simp only [List.length_cons] at hg; omega

/-- On an input that contains no occurrence of the (non-empty) pattern,
`replCharsF` is the identity. -/
theorem replCharsF_no_occurrence (pat repl : List Char) :
    ∀ (xs : List Char) (f : Nat), xs.length ≤ f → ¬ (pat <:+: xs) →
      replCharsF pat repl f xs = xs := by
  intro xs
  induction xs with
  | nil => intro f _ _; cases f <;> rfl
  | cons c rest ih =>
    intro f hf hno
    cases f with
    | zero => simp at hf
    | succ f' =>
      rw [replCharsF]
      have hp : (pat.isPrefixOf (c :: rest) && !pat.isEmpty) = false := by
        by_cases hpp : pat.isPrefixOf (c :: rest) = true
        · obtain ⟨u, hu⟩ := Iff.mp List.isPrefixOf_iff_prefix hpp
          exact absurd ⟨[], u, by simpa using hu⟩ hno
        · simp [hpp]
      rw [if_neg (by simp [hp])]
      have hrest : replCharsF pat repl f' rest = rest := by
        apply ih f'
        · simp only [List.length_cons] at hf; omega
        · exact fun hin => hno (infixExtendCons c hin)
      rw [hrest]

/-- Scanning `n ++ "-s-" ++ t` where `n` holds no occurrence of `"-s-"`
and does not end in `"-s"` consumes `n` verbatim, replaces the separator,
and continues on `t`. -/
theorem replCharsF_step (repl : List Char) :
    ∀ (n t : List Char) (f : Nat),
      (n ++ ['-', 's', '-'] ++ t).length ≤ f →
      ¬ (['-', 's', '-'] <:+: n) →
      ¬ (['-', 's'] <:+ n) →
      replCharsF ['-', 's', '-'] repl f (n ++ ['-', 's', '-'] ++ t)
        = n ++ repl ++ replCharsF ['-', 's', '-'] repl t.length t := by
  intro n
  induction n with
  | nil =>
    intro t f hf _ _
    cases f with
    | zero => simp at hf
    | succ f' =>
      simp only [List.nil_append, List.cons_append]
      have hpre : (['-', 's', '-'] : List Char).isPrefixOf
          ('-' :: 's' :: '-' :: t) = true :=
        Iff.mpr List.isPrefixOf_iff_prefix ⟨t, rfl⟩
      rw [replCharsF, if_pos (by rw [hpre]; rfl)]
      rw [show (('-' :: 's' :: '-' :: t).drop
          (['-', 's', '-'] : List Char).length) = t from rfl]
      congr 1
      apply replCharsF_fuel
      · simp only [List.nil_append, List.cons_append, List.length_append,
          List.length_cons] at hf
        omega
      · exact Nat.le_refl _
  | cons c n' ih =>
    intro t f hf h1 h2
    cases f with
    | zero => simp at hf
    | succ f' =>
      rw [List.cons_append, List.cons_append, replCharsF]
      have hp : ¬ (((['-', 's', '-'] : List Char).isPrefixOf
            (c :: (n' ++ ['-', 's', '-'] ++ t))
          && !(['-', 's', '-'] : List Char).isEmpty) = true) := by
        intro hpp
        rw [Bool.and_eq_true] at hpp
        obtain ⟨u, hu⟩ := Iff.mp List.isPrefixOf_iff_prefix hpp.1
        rcases n' with _ | ⟨d, n''⟩
        · simp only [List.nil_append, List.cons_append] at hu
          have h2' := hu
          injection h2' with e1 h2'
          injection h2' with e2 _
          exact absurd e2 (by decide)
        · rcases n'' with _ | ⟨e, n'''⟩
          · simp only [List.cons_append, List.nil_append] at hu
            have h2' := hu
            injection h2' with e1 h2'
            injection h2' with e2 h2'
            subst e1
            subst e2
            exact h2 (List.suffix_rfl)
          · simp only [List.cons_append] at hu
            have h2' := hu
            injection h2' with e1 h2'
            injection h2' with e2 h2'
            injection h2' with e3 _
            subst e1
            subst e2
            subst e3
            exact h1 ⟨[], n''', rfl⟩
      rw [if_neg hp]
      rw [ih t f' ?_ ?_ ?_]
      · simp
      · simp only [List.cons_append, List.length_cons] at hf
        omega
      · exact fun hin => h1 (infixExtendCons c hin)
      · exact fun hsuf => h2 (hsuf.trans (List.suffix_cons c n'))

/-- Replacing the separator throughout a separator-join yields the join
with the replacement as separator, when no part contains the separator or
ends in `"-s"`. -/
theorem replCharsF_join (repl : List Char) :
    ∀ names : List (List Char),
      (∀ x ∈ names, ¬ (['-', 's', '-'] <:+: x) ∧ ¬ (['-', 's'] <:+ x)) →
      replCharsF ['-', 's', '-'] repl
          (joinChars ['-', 's', '-'] names).length
          (joinChars ['-', 's', '-'] names)
        = joinChars repl names := by
  intro names
  induction names with
  | nil => intro _; rfl
  | cons n rest ih =>
    intro h
    rcases rest with _ | ⟨m, rest'⟩
    · rw [joinChars, joinChars]
      exact replCharsF_no_occurrence _ repl n n.length
        (Nat.le_refl _) (h n (by simp)).1
    · rw [show joinChars ['-', 's', '-'] (n :: m :: rest')
          = n ++ ['-', 's', '-'] ++ joinChars ['-', 's', '-'] (m :: rest')
        from rfl]
      rw [replCharsF_step repl n (joinChars ['-', 's', '-'] (m :: rest')) _
        (Nat.le_refl _) (h n (by simp)).1 (h n (by simp)).2]
      rw [ih (fun x hx => h x (List.mem_cons_of_mem n hx))]
      rfl

/-- C9 (counterexample): the local names `"a-s"` and `"-b"` contain no
occurrence of the separator `"-s-"`, yet replacing the separator in the
hierarchical name `"a-s" ++ "-s-" ++ "-b" = "a-s-s--b"` yields `"a.s--b"`
(the scan matches one character early, inside the boundary), not the
display join `"a-s.-b"`. -/
theorem c9_roundtrip_counterexample :
    (¬ (STACK_SEPARATOR.data <:+: "a-s".data)) ∧
    (¬ (STACK_SEPARATOR.data <:+: "-b".data)) ∧
    pyReplace (sJoin ["a-s", "-b"]) STACK_SEPARATOR STACK_SEPARATOR_REPR
        = "a.s--b" ∧
    displayJoin ["a-s", "-b"] = "a-s.-b" ∧
    pyReplace (sJoin ["a-s", "-b"]) STACK_SEPARATOR STACK_SEPARATOR_REPR
        ≠ displayJoin ["a-s", "-b"] := by
  refine ⟨by decide, by decide, by decide, by decide, by decide⟩

/-- C9 (amended): for local names containing no occurrence of the
separator `"-s-"` and not ending in `"-s"`, replacing every occurrence of
the separator in the hierarchical name (the `"-s-"`-join of the path, as
`Component.name` computes it) with `"."` yields exactly the `"."`-joined
path. -/
theorem c9_roundtrip_amended (names : List String)
    (h : ∀ nm ∈ names, ¬ (STACK_SEPARATOR.data <:+: nm.data) ∧
        ¬ ("-s".data <:+ nm.data)) :
    pyReplace (sJoin names) STACK_SEPARATOR STACK_SEPARATOR_REPR
      = displayJoin names := by
  have hchar := replCharsF_join STACK_SEPARATOR_REPR.data
    (names.map String.data) ?_
  · exact congrArg String.mk hchar
  · intro x hx
    obtain ⟨nm, hnm, rfl⟩ := List.mem_map.mp hx
    exact h nm hnm

/-- Witness for C9's amended round trip at the path `["web", "ui"]`. -/
theorem c9_roundtrip_amended_witness :
    (∀ nm ∈ ["web", "ui"], ¬ (STACK_SEPARATOR.data <:+: nm.data) ∧
        ¬ ("-s".data <:+ nm.data)) ∧
    pyReplace (sJoin ["web", "ui"]) STACK_SEPARATOR STACK_SEPARATOR_REPR
        = displayJoin ["web", "ui"] := by
  refine ⟨by decide, ?_⟩
  exact c9_roundtrip_amended ["web", "ui"] (by decide)

end JujuStack
